import Mathlib

/-!
Verification development for the lsp-plugins DSP core.

This file gives a shallow embedding of the three source units

  * include/core/native/filters.h   (biquad_process_x1/x2/x4/x8)
  * src/core/util/Analyzer.cpp      (ring buffer, reconfigure, process loop)
  * src/core/util/Oscilloscope.cpp  (capture ring, trigger sweep state machine)

and proves or refutes the frozen specification claims about them.
Machine floats are embedded as exact rationals, machine-size counters as
naturals or integers with explicit wrap where the C code can wrap, buffers
as total functions from indices to sample values, and fallible or external
collaborators (trigger detector, oversampler, window tables) as the spec
describes them.
-/

/-! ### Biquad engine (include/core/native/filters.h) -/

/-- Coefficient set of one transposed-direct-form-II biquad section.
In the source layout, x1 stores these as a = {a0, a0, a1, a2} and
b = {b1, b2, 0, 0}; the recurrence is
s2 = a0*s + d0; p1 = a1*s + b1*s2; p2 = a2*s + b2*s2;
dst = s2; d0 := d1 + p1; d1 := p2. -/
structure Bq where
  a0 : ℚ
  a1 : ℚ
  a2 : ℚ
  b1 : ℚ
  b2 : ℚ
deriving DecidableEq

/-- One iteration of the biquad_process_x1 loop body: consumes input sample s
with delay pair d = (d[0], d[1]) and returns the output sample together with
the updated delay pair. -/
def x1step (c : Bq) (d : ℚ × ℚ) (s : ℚ) : ℚ × (ℚ × ℚ) :=
  let s2 := c.a0 * s + d.1
  let p1 := c.a1 * s + c.b1 * s2
  let p2 := c.a2 * s + c.b2 * s2
  (s2, (d.2 + p1, p2))

/-- Embedding of biquad_process_x1: the plain per-sample loop of the source,
returning the written output samples and the final delay memory. -/
def biquad_process_x1 (c : Bq) : List ℚ → ℚ × ℚ → List ℚ × (ℚ × ℚ)
  | [], d => ([], d)
  | s :: xs, d =>
    let yd := x1step c d s
    let rest := biquad_process_x1 c xs yd.2
    (yd.1 :: rest.1, rest.2)

/-- Steady-state loop plus the final drain block of biquad_process_x2.
The carry r holds the first section's previous output; each iteration runs
the second section (coefficients cB, delays d[4], d[5]) on r, runs the first
section (coefficients cA, delays d[0], d[1]) on the next input, emits the
second section's output, and captures the new carry.  When the input list is
exhausted, the drain block runs the second section once more on the final
carry and emits its output. -/
def x2loop (cA cB : Bq) : List ℚ → ℚ → ℚ × ℚ → ℚ × ℚ → List ℚ × ((ℚ × ℚ) × (ℚ × ℚ))
  | [], r, dA, dB =>
    let yd := x1step cB dB r
    ([yd.1], (dA, yd.2))
  | s :: xs, r, dA, dB =>
    let yB := x1step cB dB r
    let yA := x1step cA dA s
    let rest := x2loop cA cB xs yA.1 yA.2 yB.2
    (yB.1 :: rest.1, rest.2)

/-- Embedding of biquad_process_x2: for an empty input the source returns
immediately; otherwise the first block runs only the first section on the
first sample and the loop/drain produce the outputs.  cA is the first
section (a[0..3], b[0..1]) and cB the second (a[4..7], b[4..5]); dA embeds
the delay pair d[0], d[1] and dB the pair d[4], d[5]. -/
def biquad_process_x2 (cA cB : Bq) :
    List ℚ → ℚ × ℚ → ℚ × ℚ → List ℚ × ((ℚ × ℚ) × (ℚ × ℚ))
  | [], dA, dB => ([], (dA, dB))
  | s :: xs, dA, dB =>
    let yA := x1step cA dA s
    x2loop cA cB xs yA.1 yA.2 dB

/-- Coefficient banks of the four serial lanes of biquad_process_x4
(a0[0..3], a1[0..3], a2[0..3], b1[0..3], b2[0..3] in the source). -/
structure X4Coef where
  l0 : Bq
  l1 : Bq
  l2 : Bq
  l3 : Bq
deriving DecidableEq

/-- Running state of the x4/x8 pipeline: the lane inputs s[0..3], the lane
outputs s2[0..3] (which persist across iterations exactly as the local C
arrays do), and the delay memory d, indexed as in the source. -/
structure X4St where
  s : ℕ → ℚ
  t : ℕ → ℚ
  d : ℕ → ℚ

/-- Lane computation of the x4/x8 body for lane j: reads s[j], d[j] and
d[j+o] (o = 4 for x4, o = 8 for the x8 passes), writes s2[j], d[j], d[j+o].
This is the transposed-form recurrence of one lane. -/
def x4lane (o : ℕ) (c : Bq) (j : ℕ) (st : X4St) : X4St :=
  let x := st.s j
  let s2 := c.a0 * x + st.d j
  let p1 := c.a1 * x + c.b1 * s2
  let p2 := c.a2 * x + c.b2 * s2
  { st with
    t := Function.update st.t j s2
    d := Function.update (Function.update st.d j (st.d (j + o) + p1)) (j + o) p2 }

/-- End-of-iteration shift of the carry vector: s[3] := s2[2], s[2] := s2[1],
s[1] := s2[0]; s[0] is left as is (it is overwritten by the next push). -/
def x4shift (st : X4St) : X4St :=
  { st with s := fun j =>
      if j = 1 then st.t 0 else if j = 2 then st.t 1 else if j = 3 then st.t 2 else st.s j }

/-- Startup-phase body of biquad_process_x4: pushes the input sample into
lane 0, computes lane 0 unconditionally and lanes 1 and 2 when the mask bit
for them is set (lane 3 is never live during startup), then shifts. -/
def x4startBody (o : ℕ) (c : X4Coef) (m : ℕ) (x : ℚ) (st : X4St) : X4St :=
  let st := { st with s := Function.update st.s 0 x }
  let st := x4lane o c.l0 0 st
  let st := if m.testBit 1 then x4lane o c.l1 1 st else st
  let st := if m.testBit 2 then x4lane o c.l2 2 st else st
  x4shift st

/-- Startup phase of biquad_process_x4: the do-while loop runs once per input
sample but at most three times; the live mask goes 1, 3, 7 inside the bodies
and is left-shifted after each, so the exit masks are 2, 6 and 14 for input
lengths 1, 2 and at least 3.  Returns the state, the exit mask, and the
remaining input. -/
def x4start (o : ℕ) (c : X4Coef) (src : List ℚ) (st : X4St) : X4St × ℕ × List ℚ :=
  match src with
  | [] => (st, 0, [])
  | [x0] => (x4startBody o c 1 x0 st, 2, [])
  | [x0, x1] => (x4startBody o c 3 x1 (x4startBody o c 1 x0 st), 6, [])
  | x0 :: x1 :: x2 :: rest =>
      (x4startBody o c 7 x2 (x4startBody o c 3 x1 (x4startBody o c 1 x0 st)), 14, rest)

/-- Steady-state phase of biquad_process_x4: all four lanes run per input
sample and s2[3] is emitted. -/
def x4steady (o : ℕ) (c : X4Coef) : List ℚ → X4St → List ℚ × X4St
  | [], st => ([], st)
  | x :: xs, st =>
    let st := { st with s := Function.update st.s 0 x }
    let st := x4lane o c.l0 0 st
    let st := x4lane o c.l1 1 st
    let st := x4lane o c.l2 2 st
    let st := x4lane o c.l3 3 st
    let y := st.t 3
    let rest := x4steady o c xs (x4shift st)
    (y :: rest.1, rest.2)

/-- Drain body of biquad_process_x4: lanes 1 and 2 run when their mask bit is
set, lane 3 always runs, s2[3] is emitted, then the shift. -/
def x4drainBody (o : ℕ) (c : X4Coef) (m : ℕ) (st : X4St) : ℚ × X4St :=
  let st := if m.testBit 1 then x4lane o c.l1 1 st else st
  let st := if m.testBit 2 then x4lane o c.l2 2 st else st
  let st := x4lane o c.l3 3 st
  (st.t 3, x4shift st)

/-- Drain phase of biquad_process_x4: the do-while loop runs the body, then
left-shifts the mask with a 4-bit wrap, until the mask is zero.  The fuel
argument bounds the recursion; fuel 4 is enough for every mask below 16,
since four doublings modulo 16 of any such mask give zero. -/
def x4drain (o : ℕ) (c : X4Coef) : ℕ → ℕ → X4St → List ℚ × X4St
  | 0, _, st => ([], st)
  | fuel + 1, m, st =>
    let y := x4drainBody o c m st
    let m' := m * 2 % 16
    if m' = 0 then ([y.1], y.2)
    else
      let rest := x4drain o c fuel m' y.2
      (y.1 :: rest.1, rest.2)

/-- Shared shape of biquad_process_x4 and of one pass of biquad_process_x8:
early return on empty input, then startup, steady state and drain.  The
local arrays s and s2 start zeroed as in the source; o is the stride from a
lane's first delay element to its second (4 for x4, 8 for x8). -/
def x4runAux (o : ℕ) (c : X4Coef) (src : List ℚ) (d : ℕ → ℚ) : List ℚ × (ℕ → ℚ) :=
  match src with
  | [] => ([], d)
  | _ =>
    let st0 : X4St := ⟨fun _ => 0, fun _ => 0, d⟩
    let s1 := x4start o c src st0
    let s2 := x4steady o c s1.2.2 s1.1
    let s3 := x4drain o c 4 s1.2.1 s2.2
    (s2.1 ++ s3.1, s3.2.d)

/-- Embedding of biquad_process_x4: four serial lanes with delay memory
d[0..7], a lane's two delay elements being d[j] and d[j+4]. -/
def biquad_process_x4 (c : X4Coef) (src : List ℚ) (d : ℕ → ℚ) : List ℚ × (ℕ → ℚ) :=
  x4runAux 4 c src d

/-- Embedding of biquad_process_x8: two successive passes of the x4 loop
shape over the same source block.  As in the source, both passes read the
original src (the source never advances its read pointer to the first
pass's output), both passes write the same dst positions (so the final dst
contents are the second pass's outputs), and both passes use delay elements
d[0..3] and d[8..11] of the shared 12-float delay memory.  The per-pass
coefficient banks are produced in the source by a reinterpret_cast into the
biquad union; they are opaque here and passed as the two parameters. -/
def biquad_process_x8 (cp0 cp1 : X4Coef) (src : List ℚ) (d : ℕ → ℚ) :
    List ℚ × (ℕ → ℚ) :=
  match src with
  | [] => ([], d)
  | _ =>
    let pass1 := x4runAux 8 cp0 src d
    let pass2 := x4runAux 8 cp1 src pass1.2
    pass2

/-! ### Spectrum analyzer (src/core/util/Analyzer.cpp) -/

/-- Segment write of the dsp copy primitive: the result agrees with src read
from offset sa on the destination window [da, da + n) and with dst
elsewhere. -/
def copySeg (dst : ℕ → ℚ) (da : ℕ) (src : ℕ → ℚ) (sa n : ℕ) : ℕ → ℚ :=
  fun i => if da ≤ i ∧ i < da + n then src (sa + (i - da)) else dst i

/-- Segment write of the dsp mul3 primitive: dst[da + k] = a[sa + k] * b[sb + k]
for k < n, other positions unchanged. -/
def mul3seg (dst : ℕ → ℚ) (da : ℕ) (a : ℕ → ℚ) (sa : ℕ) (b : ℕ → ℚ) (sb n : ℕ) :
    ℕ → ℚ :=
  fun i => if da ≤ i ∧ i < da + n then a (sa + (i - da)) * b (sb + (i - da)) else dst i

/-- Contents of the real scratch buffer vSigRe after the segmented
window-multiply of Analyzer::process lines 302-314: the time mark is
offset = (head - delay) + B if head < delay and head - delay otherwise, and
the ring window starting there is multiplied elementwise by the window
table, in two segments when it wraps. -/
def fftInputSegmented (buf win : ℕ → ℚ) (B N head delay : ℕ) : ℕ → ℚ :=
  let offset : ℕ := if head < delay then B + head - delay else head - delay
  let cnt : ℕ := B - offset
  if cnt < N then
    mul3seg (mul3seg (fun _ => 0) 0 buf offset win 0 cnt) cnt buf 0 win cnt (N - cnt)
  else
    mul3seg (fun _ => 0) 0 buf offset win 0 N

/-- Real signal handed to the FFT by Analyzer::process: after the segmented
extract of lines 302-314, line 317 unconditionally multiplies the first N
samples of the channel ring buffer by the window into vSigRe, overwriting
every index the real-to-complex pack will read. -/
def fftInputCode (buf win : ℕ → ℚ) (B N head delay : ℕ) : ℕ → ℚ :=
  mul3seg (fftInputSegmented buf win B N head delay) 0 buf 0 win 0 N

/-- Reading of the claim: the FFT input is the window applied pointwise to
the N ring samples starting at index (head - delay) mod B. -/
def fftInputSpec (buf win : ℕ → ℚ) (B N head delay : ℕ) : ℕ → ℚ :=
  fun i => if i < N then buf ((B + head - delay + i) % B) * win i else 0

/-- Per-channel reconfigurable counters of the analyzer: the channel_t
fields nCounter (ssize_t in the source) and nDelay that the R_COUNTERS
branch of reconfigure assigns. -/
structure AChan where
  nCounter : ℤ
  nDelay : ℕ
deriving DecidableEq

/-- Step between successive channels' FFT start offsets as computed by the
R_COUNTERS branch of Analyzer::reconfigure: fft_size / channels rounded down
to a multiple of 4 (step - (step & 3) in the source). -/
def counterStep (N C : ℕ) : ℕ := N / C - N / C % 4

/-- R_COUNTERS branch of Analyzer::reconfigure: channel i receives
delay = i * counterStep in both nCounter and nDelay.  The branch runs only
when the R_COUNTERS bit of the pending reconfiguration mask is set; the
bit's numeric value lives in the header outside src/, so the test is the
boolean parameter here. -/
def reconfigureCounters (hasBit : Bool) (N : ℕ) (chans : List AChan) : List AChan :=
  if hasBit then
    (List.range chans.length).map
      (fun i => ⟨((i * counterStep N chans.length : ℕ) : ℤ), i * counterStep N chans.length⟩)
  else chans

/-- Static configuration read by the Analyzer::process loop: the FFT period
(nFftPeriod), the ring size B (nBufSize) and the FFT rank (nRank, with
fft_size = 2 ^ rank). -/
structure ACfg where
  period : ℕ
  B : ℕ
  rank : ℕ
deriving DecidableEq

/-- FFT size of a configuration: fft_size = 1 <<< nRank. -/
def ACfg.N (cfg : ACfg) : ℕ := 2 ^ cfg.rank

/-- Per-channel control state of the Analyzer::process loop: the ring head,
the FFT counter (ssize_t in the source), the ring contents, the input read
position and the remaining sample count.  The FFT branch's writes to the
channel's vAmp array (mix2 of the magnitudes, or fill_zero when inactive)
touch only that array and never the control state; they are not part of
this control embedding, and the branch's FFT input is embedded separately
as fftInputCode. -/
structure ALoop where
  head : ℕ
  counter : ℤ
  buffer : ℕ → ℚ
  inPos : ℕ
  samples : ℕ

/-- Number of samples the append branch of Analyzer::process consumes in one
iteration: period - counter, clamped by the remaining samples and then by
the FFT size. -/
def aStepTp (cfg : ACfg) (st : ALoop) : ℕ :=
  min (min ((cfg.period : ℤ) - st.counter).toNat st.samples) cfg.N

/-- Append branch of one Analyzer::process loop iteration: the consumed
samples go into the ring at head, in two segments when they cross the end
of the ring (in which case the new head is to_process - count as in the
source), and head, counter, the input pointer and the remaining count
advance. -/
def aStepApp (cfg : ACfg) (inp : ℕ → ℚ) (st : ALoop) : ALoop :=
  let tp := aStepTp cfg st
  let cnt : ℤ := (cfg.B : ℤ) - (st.head : ℤ)
  if cnt < (tp : ℤ) then
    { st with
      buffer := copySeg (copySeg st.buffer st.head inp st.inPos cnt.toNat) 0 inp
        (st.inPos + cnt.toNat) (tp - cnt.toNat)
      head := ((tp : ℤ) - cnt).toNat
      counter := st.counter + (tp : ℤ)
      inPos := st.inPos + tp
      samples := st.samples - tp }
  else
    { st with
      buffer := copySeg st.buffer st.head inp st.inPos tp
      head := st.head + tp
      counter := st.counter + (tp : ℤ)
      inPos := st.inPos + tp
      samples := st.samples - tp }

/-- One iteration of the while loop of Analyzer::process: nothing happens
once the remaining sample count is zero (so a whole call is iteration of
this step), an FFT fires when period - counter has dropped to zero or below
(the counter keeping its negative-residual semantics counter := counter -
period), and otherwise the append branch runs. -/
def aStep (cfg : ACfg) (inp : ℕ → ℚ) (st : ALoop) : ALoop :=
  if st.samples = 0 then st
  else if (cfg.period : ℤ) - st.counter ≤ 0 then
    { st with counter := st.counter - (cfg.period : ℤ) }
  else aStepApp cfg inp st

/-- Configuration of the C6 counterexample run: nFftPeriod = 120, B = 128,
rank 2 (fft_size 4).  Reachable: init(1 channel, max_rank 2, max_sr 480,
min_rate 4) gives B = ALIGN_SIZE(2*2 + 480/4, 64) = 128, and
set_sample_rate 480 with set_rate 4 gives nFftPeriod = 120. -/
def c6cfg : ACfg := ⟨120, 128, 2⟩

/-- Initial channel state of the C6 counterexample run: fresh channel about
to process 128 input samples. -/
def c6st : ALoop := ⟨0, 0, fun _ => 0, 0, 128⟩

/-! ### Oscilloscope (src/core/util/Oscilloscope.cpp) -/

/-- CAPTURE_BUFFER_LIMIT_SIZE: size of the capture ring. -/
def CAPSZ : ℕ := 196608

/-- SWEEP_BUFFER_LIMIT_SIZE: size of the sweep buffer. -/
def SWPSZ : ℕ := 196608

/-- Run state of the oscilloscope state machine. -/
inductive OscState
  | acquiring
  | sweeping
deriving DecidableEq

/-- Modelled from the spec: state of the trigger detector collaborator
(class Trigger, outside src/).  Section 4.4 specifies a per-sample processor
whose FIRED state is one-shot, observed exactly on the sample that crossed
the threshold; this instance is a SIMPLE_RISING_EDGE detector with
threshold 0: prevGe records whether the previous sample was at or above the
threshold, and fired is observed on a sample at or above the threshold
whose predecessor was below it. -/
structure TrgSt where
  prevGe : Bool
  fired : Bool
deriving DecidableEq

/-- Modelled from the spec: single_sample_processor of the trigger
collaborator followed by get_trigger_state, for the rising-edge instance. -/
def trgStep (t : TrgSt) (x : ℚ) : TrgSt :=
  { prevGe := decide (0 ≤ x), fired := !t.prevGe && decide (0 ≤ x) }

/-- Observable events of one oscilloscope processing iteration: a sample fed
to the trigger detector, or a trigger event accepted (the FIRED branch
taken), each tagged with the run state the machine held at that moment. -/
inductive OscEv
  | fed (running : OscState) (x : ℚ)
  | fire (running : OscState)
deriving DecidableEq

/-- State of Oscilloscope::process: the run state, the capture ring head
(sBufferParams.nHead), the stored trigger index, the sweep head, the
completion flag, the derived sweep lengths, the oversampling factor, the
capture and sweep buffer contents, the trigger detector state, and the
remaining input count of the running call.  The field written is a ghost
counter, not in the source, accumulating how many samples have been written
into the sweep buffer since the last accepted trigger (it mirrors every
sweepHead increment but is not reset on sweep completion). -/
structure OscSt where
  enState : OscState
  bufHead : ℕ
  trigAt : ℕ
  sweepHead : ℕ
  sweepComplete : Bool
  nPre : ℕ
  nPost : ℕ
  nLimit : ℕ
  M : ℕ
  cap : ℕ → ℚ
  sweep : ℕ → ℚ
  trg : TrgSt
  count : ℕ
  written : ℕ

/-- Embedding of Oscilloscope::sweep_from_the_past (lines 125-142): copy the
nPreTrigger samples preceding the trigger sample from the capture ring into
the sweep buffer at the sweep head, as two segments when the window wraps
(the source advances the sweep head between the two segments here), the
trigger sample itself excluded. -/
def sweep_from_the_past (st : OscSt) : OscSt :=
  let copyHead := if st.trigAt < st.nPre then CAPSZ - st.nPre + st.trigAt
    else st.trigAt - st.nPre
  if st.trigAt ≤ copyHead then
    let st1 := { st with
      sweep := copySeg st.sweep st.sweepHead st.cap copyHead (CAPSZ - copyHead)
      sweepHead := st.sweepHead + (CAPSZ - copyHead)
      written := st.written + (CAPSZ - copyHead) }
    { st1 with
      sweep := copySeg st1.sweep st1.sweepHead st1.cap 0 st1.trigAt
      sweepHead := st1.sweepHead + st1.trigAt
      written := st1.written + st1.trigAt }
  else
    { st with
      sweep := copySeg st.sweep st.sweepHead st.cap copyHead (st.trigAt - copyHead)
      sweepHead := st.sweepHead + (st.trigAt - copyHead)
      written := st.written + (st.trigAt - copyHead) }

/-- Post-trigger copy of the SWEEPING branch (lines 196-211): the copy tail
is (nTriggerAt + nPostTrigger) mod CAP clamped by the capture head; without
a wrap the segment [nTriggerAt, copyTail] is appended at the sweep head;
with a wrap the source copies [nTriggerAt, CAP) to the sweep head, rolls
nTriggerAt forward to CAP, then copies [0, copyTail] to the same sweep head
(the head is not advanced between the two segments in the source, so the
second segment overwrites the first) and finally advances the head by
copyTail + 1 only. -/
def sweepPostCopy (st : OscSt) : OscSt :=
  let copyTail := min ((st.trigAt + st.nPost) % CAPSZ) st.bufHead
  if st.trigAt ≤ copyTail then
    { st with
      sweep := copySeg st.sweep st.sweepHead st.cap st.trigAt (copyTail - st.trigAt + 1)
      sweepHead := st.sweepHead + (copyTail - st.trigAt + 1)
      written := st.written + (copyTail - st.trigAt + 1) }
  else
    let st1 := { st with
      sweep := copySeg st.sweep st.sweepHead st.cap st.trigAt (CAPSZ - st.trigAt)
      trigAt := CAPSZ }
    { st1 with
      sweep := copySeg st1.sweep st1.sweepHead st1.cap 0 (copyTail + 1)
      sweepHead := st1.sweepHead + (copyTail + 1)
      written := st1.written + (copyTail + 1) }

/-- Modelled from the spec: the oversampler collaborator (class
Oversampler, outside src/) writes M * n output samples derived from n input
samples; a zero-order hold stands in for its interpolation, which none of
the claims depend on. -/
def upsampleWrite (dst : ℕ → ℚ) (da : ℕ) (src : ℕ → ℚ) (sa M n : ℕ) : ℕ → ℚ :=
  fun i => if da ≤ i ∧ i < da + M * n then src (sa + (i - da) / M) else dst i

/-- Trigger feed loop of the ACQUIRING branch (lines 172-186): each of the
to_store freshly stored ring samples is fed to the trigger detector; when
the detector reports FIRED the machine switches to SWEEPING, records
nTriggerAt = nHead + n, resets the sweep head and completion flag and
splices the pre-trigger history - and the loop then keeps feeding the
remaining samples of the batch.  The event list records each feed and each
accepted fire together with the run state held at that moment. -/
def oscFeedLoop (base : ℕ) : ℕ → ℕ → OscSt → OscSt × List OscEv
  | _, 0, st => (st, [])
  | n, k + 1, st =>
    let x := st.cap (base + n)
    let t1 := trgStep st.trg x
    let ev0 := OscEv.fed st.enState x
    let st1 := { st with trg := t1 }
    if t1.fired then
      let evF := OscEv.fire st1.enState
      let st2 := { st1 with
        enState := OscState.sweeping
        trigAt := base + n
        sweepHead := 0
        written := 0
        sweepComplete := false }
      let st3 := sweep_from_the_past st2
      let rest := oscFeedLoop base (n + 1) k st3
      (rest.1, ev0 :: evF :: rest.2)
    else
      let rest := oscFeedLoop base (n + 1) k st1
      (rest.1, ev0 :: rest.2)

/-- ACQUIRING branch of one iteration of the Oscilloscope::process loop
(lines 161-193): clamp the oversampled batch to the room left before the
ring edge, upsample to_do input samples into the ring at the head, feed the
to_store stored samples to the trigger, then advance the ring head modulo
CAP and consume to_do input samples.  As in the source, the src read
position is not advanced across outer-loop iterations. -/
def oscStepAcq (inp : ℕ → ℚ) (st : OscSt) : OscSt × List OscEv :=
  let to_store := min (st.M * st.count) (CAPSZ - st.bufHead)
  let to_do := to_store / st.M
  let st1 := { st with cap := upsampleWrite st.cap st.bufHead inp 0 st.M to_do }
  let fl := oscFeedLoop st.bufHead 0 to_store st1
  ({ fl.1 with
      bufHead := (fl.1.bufHead + to_store) % CAPSZ
      count := fl.1.count - to_do }, fl.2)

/-- Ingestion shared by both branches (lines 163-170 and 213-222): clamp,
upsample into the ring at the head, advance the head modulo CAP and consume
to_do input samples. -/
def oscIngest (inp : ℕ → ℚ) (st : OscSt) : OscSt :=
  let to_store := min (st.M * st.count) (CAPSZ - st.bufHead)
  let to_do := to_store / st.M
  let st1 := { st with cap := upsampleWrite st.cap st.bufHead inp 0 st.M to_do }
  { st1 with
    bufHead := (st1.bufHead + to_store) % CAPSZ
    count := st1.count - to_do }

/-- Sweep completion test of line 224: nHead >= nLimit - 1 with size_t
subtraction, which wraps when nLimit = 0. -/
def sweepLimitHit (nLimit nHead : ℕ) : Bool :=
  if nLimit = 0 then decide (2 ^ 64 - 1 ≤ nHead) else decide (nLimit - 1 ≤ nHead)

/-- SWEEPING branch of one iteration of the Oscilloscope::process loop
(lines 194-232): post-trigger copy, ingestion without feeding the trigger,
then, when the sweep head has reached nLimit - 1, completion: flag set,
sweep head reset, back to ACQUIRING. -/
def oscStepSwp (inp : ℕ → ℚ) (st : OscSt) : OscSt :=
  let st1 := oscIngest inp (sweepPostCopy st)
  if sweepLimitHit st1.nLimit st1.sweepHead then
    { st1 with enState := OscState.acquiring, sweepHead := 0, sweepComplete := true }
  else st1

/-- One iteration of the while loop of Oscilloscope::process, together with
the trigger events it generates; once count is zero the loop has exited and
the state is returned unchanged. -/
def oscStepEv (inp : ℕ → ℚ) (st : OscSt) : OscSt × List OscEv :=
  if st.count = 0 then (st, [])
  else if st.enState = OscState.sweeping then (oscStepSwp inp st, [])
  else oscStepAcq inp st

/-- State part of one iteration of the Oscilloscope::process loop. -/
def oscStep (inp : ℕ → ℚ) (st : OscSt) : OscSt := (oscStepEv inp st).1

/-- State established by the Oscilloscope constructor (lines 15-48): run
state ACQUIRING, zeroed heads, trigger index and sweep parameters, and
nOversampling = 0 (update_settings has not run).  The buffers are not yet
allocated; their contents are immaterial and taken as zero.  The count
field stands for the remaining input of a process call in progress, zero
at construction. -/
def oscConstruct : OscSt :=
  { enState := OscState.acquiring, bufHead := 0, trigAt := 0, sweepHead := 0,
    sweepComplete := false, nPre := 0, nPost := 0, nLimit := 0, M := 0,
    cap := fun _ => 0, sweep := fun _ => 0, trg := ⟨false, false⟩,
    count := 0, written := 0 }

/-- Length of the post-trigger copy of one SWEEPING iteration, i.e. the
amount by which it advances the sweep head. -/
def postCopyLen (st : OscSt) : ℕ :=
  let copyTail := min ((st.trigAt + st.nPost) % CAPSZ) st.bufHead
  if st.trigAt ≤ copyTail then copyTail - st.trigAt + 1 else copyTail + 1

/-- Acquiring state of the C5 counterexample: a rising edge on the first
stored sample fires the trigger, and two more samples of the same batch
follow it. -/
def c5st : OscSt :=
  { enState := OscState.acquiring, bufHead := 0, trigAt := 0, sweepHead := 0,
    sweepComplete := false, nPre := 1, nPost := 1, nLimit := 2, M := 1,
    cap := fun _ => 0, sweep := fun _ => 0, trg := ⟨false, false⟩,
    count := 3, written := 0 }

/-- Input block of the C5 counterexample: samples 1, -1, 1, so the trigger
fires on the first sample and again on the third. -/
def c5inp : ℕ → ℚ := fun i => if i = 1 then -1 else 1

/-- Acquiring state of the C7 counterexample: the trigger will fire on the
last stored sample of the first batch. -/
def c7st : OscSt :=
  { enState := OscState.acquiring, bufHead := 0, trigAt := 0, sweepHead := 0,
    sweepComplete := false, nPre := 1, nPost := 3, nLimit := 4, M := 1,
    cap := fun _ => 0, sweep := fun _ => 0, trg := ⟨true, false⟩,
    count := 2, written := 0 }

/-- Input block of the C7 counterexample: a falling sample then a rising
edge. -/
def c7inp : ℕ → ℚ := fun i => if i = 0 then -1 else 1

/-- Configuration of the C9 counterexample: nFftPeriod = 0, as reconfigure
computes when process runs before any set_sample_rate (nSampleRate is
still the constructor's 0, fRate the constructor's 1). -/
def c9cfg : ACfg := ⟨0, 128, 2⟩

/-- Channel state of the C9 counterexample: one pending sample. -/
def c9st : ALoop := ⟨0, 0, fun _ => 0, 0, 1⟩

/-- SWEEPING-entry state of the C2 counterexample: the trigger has fired at
the last ring slot (trigAt = CAP - 1) of a batch that ended exactly at the
ring edge, so the capture head has wrapped to 0; the trigger sample holds 7
and ring slot 0 holds 5. -/
def c2st : OscSt :=
  { enState := OscState.sweeping, bufHead := 0, trigAt := 196607, sweepHead := 0,
    sweepComplete := false, nPre := 1, nPost := 3, nLimit := 4, M := 1,
    cap := fun i => if i = 196607 then 7 else if i = 0 then 5 else 0,
    sweep := fun _ => 0, trg := ⟨true, false⟩, count := 0, written := 0 }

/-- Witness for osc_pretrigger_splice at a concrete state: trigAt = 5,
nPre = 2, nPost = 1, bufHead = 7, ring contents 11, 12, 13 at slots 3, 4,
5. -/
def c2wit : OscSt :=
  { enState := OscState.sweeping, bufHead := 7, trigAt := 5, sweepHead := 0,
    sweepComplete := false, nPre := 2, nPost := 1, nLimit := 3, M := 1,
    cap := fun i => if i = 3 then 11 else if i = 4 then 12 else if i = 5 then 13 else 0,
    sweep := fun _ => 0, trg := ⟨true, false⟩, count := 0, written := 0 }

/-! ### Theorems: helper lemmas and the claim verdicts -/

theorem biquad_x1_length (c : Bq) (src : List ℚ) (d : ℚ × ℚ) :
    (biquad_process_x1 c src d).1.length = src.length := by
  induction src generalizing d with
  | nil => rfl
  | cons s xs ih => simp [biquad_process_x1, ih]

theorem x2loop_length (cA cB : Bq) (xs : List ℚ) (r : ℚ) (dA dB : ℚ × ℚ) :
    (x2loop cA cB xs r dA dB).1.length = xs.length + 1 := by
  induction xs generalizing r dA dB with
  | nil => rfl
  | cons s ys ih => simp [x2loop, ih]

theorem biquad_x2_length (cA cB : Bq) (src : List ℚ) (dA dB : ℚ × ℚ) :
    (biquad_process_x2 cA cB src dA dB).1.length = src.length := by
  cases src with
  | nil => rfl
  | cons s xs => simp [biquad_process_x2, x2loop_length]

theorem x4steady_length (o : ℕ) (c : X4Coef) (xs : List ℚ) (st : X4St) :
    (x4steady o c xs st).1.length = xs.length := by
  induction xs generalizing st with
  | nil => rfl
  | cons x ys ih => simp [x4steady, ih]

theorem x4drain_length_of_mask (o : ℕ) (c : X4Coef) (st : X4St)
    (m : ℕ) (hm : m = 2 ∨ m = 6 ∨ m = 14) :
    (x4drain o c 4 m st).1.length = 3 := by
  rcases hm with h | h | h <;> subst h <;>
    simp [x4drain]

theorem x4runAux_length (o : ℕ) (c : X4Coef) (src : List ℚ) (d : ℕ → ℚ)
    (h : src ≠ []) :
    (x4runAux o c src d).1.length = max src.length 3 := by
  match src, h with
  | [x0], _ =>
      simp [x4runAux, x4start, x4steady,
        x4drain_length_of_mask o c _ 2 (Or.inl rfl)]
  | [x0, x1], _ =>
      simp [x4runAux, x4start, x4steady,
        x4drain_length_of_mask o c _ 6 (Or.inr (Or.inl rfl))]
  | x0 :: x1 :: x2 :: rest, _ =>
      simp [x4runAux, x4start, x4steady_length,
        x4drain_length_of_mask o c _ 14 (Or.inr (Or.inr rfl))]

theorem x2loop_eq_cascade (cA cB : Bq) (xs : List ℚ) (r : ℚ) (dA dB : ℚ × ℚ) :
    x2loop cA cB xs r dA dB =
      ((biquad_process_x1 cB (r :: (biquad_process_x1 cA xs dA).1) dB).1,
       ((biquad_process_x1 cA xs dA).2,
        (biquad_process_x1 cB (r :: (biquad_process_x1 cA xs dA).1) dB).2)) := by
  induction xs generalizing r dA dB with
  | nil => simp [x2loop, biquad_process_x1]
  | cons s ys ih => simp [x2loop, biquad_process_x1, ih]

/-- C4: for every pair of section coefficients, every split initial delay
state and every input of length at least 64, the two-section pipeline of
biquad_process_x2 produces exactly the output of biquad_process_x1 with the
first section's coefficients followed by biquad_process_x1 with the second
section's coefficients, in the embedding's exact rational arithmetic. -/
theorem biquad_x2_is_cascade (cA cB : Bq) (src : List ℚ) (dA dB : ℚ × ℚ)
    (h : 64 ≤ src.length) :
    (biquad_process_x2 cA cB src dA dB).1 =
      (biquad_process_x1 cB (biquad_process_x1 cA src dA).1 dB).1 := by
  cases src with
  | nil => simp at h
  | cons s xs => simp [biquad_process_x2, biquad_process_x1, x2loop_eq_cascade]

/-- Witness for biquad_x2_is_cascade at a concrete 64-sample input. -/
theorem biquad_x2_is_cascade_witness :
    64 ≤ (List.replicate 64 (1 : ℚ)).length ∧
      (biquad_process_x2 ⟨1, 0, 0, 0, 0⟩ ⟨2, 0, 0, 0, 0⟩
          (List.replicate 64 (1 : ℚ)) (0, 0) (0, 0)).1 =
        (biquad_process_x1 ⟨2, 0, 0, 0, 0⟩
          (biquad_process_x1 ⟨1, 0, 0, 0, 0⟩
            (List.replicate 64 (1 : ℚ)) (0, 0)).1 (0, 0)).1 :=
  ⟨by simp, biquad_x2_is_cascade _ _ _ _ _ (by simp)⟩

/-- C3 counterexample: with a single input sample, biquad_process_x4 does not
write exactly one output sample; its startup loop emits nothing, and its
drain loop always emits three samples, so dst receives three writes. -/
theorem biquad_x4_count_cex :
    (biquad_process_x4 ⟨⟨1, 0, 0, 0, 0⟩, ⟨1, 0, 0, 0, 0⟩, ⟨1, 0, 0, 0, 0⟩, ⟨1, 0, 0, 0, 0⟩⟩
        [(1 : ℚ)] (fun _ => 0)).1.length ≠ 1 := by
  have h := x4runAux_length 4
    ⟨⟨1, 0, 0, 0, 0⟩, ⟨1, 0, 0, 0, 0⟩, ⟨1, 0, 0, 0, 0⟩, ⟨1, 0, 0, 0, 0⟩⟩
    [(1 : ℚ)] (fun _ => 0) (by simp)
  simp only [biquad_process_x4] at *
  omega

/-- C3 (amended): for every count at least 1, biquad_process_x1 and
biquad_process_x2 write exactly count output samples, while
biquad_process_x4 and biquad_process_x8 write exactly max(count, 3) output
samples (count when count is at least 3, and 3 when count is 1 or 2); the
delay memory is threaded through and returned updated. -/
theorem biquad_output_counts (c1 cA cB : Bq) (c4 cp0 cp1 : X4Coef)
    (src : List ℚ) (d1 dA dB : ℚ × ℚ) (d4 d8 : ℕ → ℚ)
    (h : 1 ≤ src.length) :
    (biquad_process_x1 c1 src d1).1.length = src.length ∧
    (biquad_process_x2 cA cB src dA dB).1.length = src.length ∧
    (biquad_process_x4 c4 src d4).1.length = max src.length 3 ∧
    (biquad_process_x8 cp0 cp1 src d8).1.length = max src.length 3 := by
  cases src with
  | nil => simp at h
  | cons s xs =>
      refine ⟨biquad_x1_length _ _ _, biquad_x2_length _ _ _ _ _,
        x4runAux_length 4 _ _ _ (by simp), ?_⟩
      show (x4runAux 8 cp1 (s :: xs) (x4runAux 8 cp0 (s :: xs) d8).2).1.length = _
      exact x4runAux_length 8 _ _ _ (by simp)

/-- Witness for biquad_output_counts at a concrete one-sample input. -/
theorem biquad_output_counts_witness :
    1 ≤ [(1 : ℚ)].length ∧
      ((biquad_process_x1 ⟨1, 0, 0, 0, 0⟩ [(1 : ℚ)] (0, 0)).1.length = 1 ∧
       (biquad_process_x2 ⟨1, 0, 0, 0, 0⟩ ⟨1, 0, 0, 0, 0⟩ [(1 : ℚ)] (0, 0) (0, 0)).1.length = 1 ∧
       (biquad_process_x4 ⟨⟨1, 0, 0, 0, 0⟩, ⟨1, 0, 0, 0, 0⟩, ⟨1, 0, 0, 0, 0⟩, ⟨1, 0, 0, 0, 0⟩⟩
          [(1 : ℚ)] (fun _ => 0)).1.length = max 1 3 ∧
       (biquad_process_x8
          ⟨⟨1, 0, 0, 0, 0⟩, ⟨1, 0, 0, 0, 0⟩, ⟨1, 0, 0, 0, 0⟩, ⟨1, 0, 0, 0, 0⟩⟩
          ⟨⟨1, 0, 0, 0, 0⟩, ⟨1, 0, 0, 0, 0⟩, ⟨1, 0, 0, 0, 0⟩, ⟨1, 0, 0, 0, 0⟩⟩
          [(1 : ℚ)] (fun _ => 0)).1.length = max 1 3) :=
  ⟨by simp, by
    have h := biquad_output_counts ⟨1, 0, 0, 0, 0⟩ ⟨1, 0, 0, 0, 0⟩ ⟨1, 0, 0, 0, 0⟩
      ⟨⟨1, 0, 0, 0, 0⟩, ⟨1, 0, 0, 0, 0⟩, ⟨1, 0, 0, 0, 0⟩, ⟨1, 0, 0, 0, 0⟩⟩
      ⟨⟨1, 0, 0, 0, 0⟩, ⟨1, 0, 0, 0, 0⟩, ⟨1, 0, 0, 0, 0⟩, ⟨1, 0, 0, 0, 0⟩⟩
      ⟨⟨1, 0, 0, 0, 0⟩, ⟨1, 0, 0, 0, 0⟩, ⟨1, 0, 0, 0, 0⟩, ⟨1, 0, 0, 0, 0⟩⟩
      [(1 : ℚ)] (0, 0) (0, 0) (0, 0) (fun _ => 0) (fun _ => 0) (by simp)
    simpa using h⟩

/-- C1: with ring size B = 8, FFT size N = 4, head 6 and channel phase delay
2 (so the extract starts at ring index 4; ring contents are 9 at index 4 and
0 elsewhere; rectangular window), the signal handed to the FFT by the code
differs from the windowed ring extract the claim describes, because the
unconditional window-multiply at Analyzer.cpp:317 overwrites the segmented
extract of lines 302-314 (whose value, also computed here, does match the
claim): at index 0 the code hands buf[0]*win[0] = 0 to the FFT while the
claimed extract is buf[4]*win[0] = 9. -/
theorem analyzer_fft_input_cex :
    fftInputCode (fun i => if i = 4 then (9 : ℚ) else 0) (fun _ => 1) 8 4 6 2 0 = 0 ∧
    fftInputSpec (fun i => if i = 4 then (9 : ℚ) else 0) (fun _ => 1) 8 4 6 2 0 = 9 ∧
    fftInputSegmented (fun i => if i = 4 then (9 : ℚ) else 0) (fun _ => 1) 8 4 6 2 0 = 9 := by
  refine ⟨?_, ?_, ?_⟩ <;>
    norm_num [fftInputCode, fftInputSpec, fftInputSegmented, mul3seg]

/-- C8: when reconfigure applies the R_COUNTERS bit, channel i receives the
start offset i * step, step being fft_size / channels rounded down to a
multiple of 4, and this one value lands in both nCounter and nDelay; with 4
channels and N = 256 the offsets are 0, 64, 128, 192. -/
theorem reconfigure_counters_ok :
    (∀ (N : ℕ) (chans : List AChan) (i : ℕ), i < chans.length →
        ((reconfigureCounters true N chans).getD i ⟨0, 0⟩).nCounter =
          ((i * counterStep N chans.length : ℕ) : ℤ) ∧
        ((reconfigureCounters true N chans).getD i ⟨0, 0⟩).nDelay =
          i * counterStep N chans.length) ∧
    (reconfigureCounters true 256 [⟨9, 9⟩, ⟨9, 9⟩, ⟨9, 9⟩, ⟨9, 9⟩]).map (·.nDelay) =
      [0, 64, 128, 192] := by
  refine ⟨?_, by decide⟩
  intro N chans i hi
  have hlen : i < ((List.range chans.length).map
      (fun i => (⟨((i * counterStep N chans.length : ℕ) : ℤ),
        i * counterStep N chans.length⟩ : AChan))).length := by
    simpa using hi
  rw [reconfigureCounters, if_pos rfl, List.getD_eq_getElem _ _ hlen,
    List.getElem_map, List.getElem_range]
  exact ⟨rfl, rfl⟩

/-- Witness for reconfigure_counters_ok: channel 1 of a two-channel analyzer
with N = 256 receives counter and delay 128. -/
theorem reconfigure_counters_ok_witness :
    (1 < ([⟨0, 0⟩, ⟨0, 0⟩] : List AChan).length) ∧
      ((reconfigureCounters true 256 [⟨0, 0⟩, ⟨0, 0⟩]).getD 1 ⟨0, 0⟩).nCounter =
        ((1 * counterStep 256 ([⟨0, 0⟩, ⟨0, 0⟩] : List AChan).length : ℕ) : ℤ) ∧
      ((reconfigureCounters true 256 [⟨0, 0⟩, ⟨0, 0⟩]).getD 1 ⟨0, 0⟩).nDelay =
        1 * counterStep 256 ([⟨0, 0⟩, ⟨0, 0⟩] : List AChan).length :=
  ⟨by decide, (reconfigure_counters_ok.1 256 [⟨0, 0⟩, ⟨0, 0⟩] 1 (by decide)).1,
    (reconfigure_counters_ok.1 256 [⟨0, 0⟩, ⟨0, 0⟩] 1 (by decide)).2⟩

theorem aStepApp_samples (cfg : ACfg) (inp : ℕ → ℚ) (st : ALoop) :
    (aStepApp cfg inp st).samples = st.samples - aStepTp cfg st := by
  rw [aStepApp]
  split <;> rfl

theorem aStepApp_counter (cfg : ACfg) (inp : ℕ → ℚ) (st : ALoop) :
    (aStepApp cfg inp st).counter = st.counter + (aStepTp cfg st : ℤ) := by
  rw [aStepApp]
  split <;> rfl

theorem aStepTp_pos (cfg : ACfg) (st : ALoop)
    (hs : st.samples ≠ 0) (hc : ¬ ((cfg.period : ℤ) - st.counter ≤ 0)) :
    1 ≤ aStepTp cfg st := by
  have h1 : 1 ≤ ((cfg.period : ℤ) - st.counter).toNat := by omega
  have h2 : 1 ≤ st.samples := by omega
  have h3 : 1 ≤ cfg.N := Nat.one_le_two_pow
  simp only [aStepTp]
  omega

theorem aStepApp_head_le (cfg : ACfg) (inp : ℕ → ℚ) (st : ALoop)
    (hper : cfg.period ≤ cfg.B) (hh : st.head ≤ cfg.B) (hc : 0 ≤ st.counter) :
    (aStepApp cfg inp st).head ≤ cfg.B := by
  have htp : aStepTp cfg st ≤ ((cfg.period : ℤ) - st.counter).toNat := by
    simp only [aStepTp]; omega
  rw [aStepApp]
  split
  · next h =>
      simp only []
      omega
  · next h =>
      simp only []
      omega

/-- C6 (amended): head stays within [0, B] and the counter stays nonnegative
across every iteration of the Analyzer::process loop, provided the FFT
period does not exceed the ring size (which holds for every configuration
reachable through the clamped setters, since nFftPeriod = sample_rate/rate
is at most max_sr/min_rate, a lower bound of B); and after a reconfigure
that applies R_COUNTERS every channel delay i * counterStep is below the
FFT size N.  The stronger bounds of the original claim fail: head = B is
reachable (analyzer_head_cex), a reconfigured counter can exceed
nFftPeriod, and delay at most B - N fails whenever N exceeds B. -/
theorem analyzer_invariants_amended :
    (∀ (cfg : ACfg) (inp : ℕ → ℚ) (st : ALoop),
        cfg.period ≤ cfg.B → st.head ≤ cfg.B → 0 ≤ st.counter →
        (aStep cfg inp st).head ≤ cfg.B ∧ 0 ≤ (aStep cfg inp st).counter) ∧
    (∀ (N C i : ℕ), 0 < N → i < C → i * counterStep N C < N) := by
  constructor
  · intro cfg inp st hper hh hc
    rw [aStep]
    split
    · exact ⟨hh, hc⟩
    · split
      · next h =>
          refine ⟨hh, ?_⟩
          show (0 : ℤ) ≤ st.counter - (cfg.period : ℤ)
          omega
      · next h =>
          refine ⟨aStepApp_head_le cfg inp st hper hh hc, ?_⟩
          rw [aStepApp_counter]
          omega
  · intro N C i hN hi
    by_cases hq : N / C = 0
    · simp [counterStep, hq, hN]
    · have hstep : counterStep N C ≤ N / C := Nat.sub_le _ _
      have h1 : i * counterStep N C ≤ i * (N / C) :=
        Nat.mul_le_mul_left i hstep
      have h2 : i * (N / C) ≤ (C - 1) * (N / C) :=
        Nat.mul_le_mul_right _ (by omega)
      have h3 : (C - 1) * (N / C) + N / C = C * (N / C) := by
        have hC1 : C - 1 + 1 = C := by omega
        calc (C - 1) * (N / C) + N / C = (C - 1 + 1) * (N / C) := by ring
          _ = C * (N / C) := by rw [hC1]
      have h4 : C * (N / C) ≤ N := by
        rw [Nat.mul_comm]
        exact Nat.div_mul_le_self N C
      omega

/-- Witness for analyzer_invariants_amended at a concrete configuration and
state. -/
theorem analyzer_invariants_amended_witness :
    ((120 : ℕ) ≤ 128 ∧ (5 : ℕ) ≤ 128 ∧ (0 : ℤ) ≤ 7 ∧
      (aStep ⟨120, 128, 2⟩ (fun _ => 0) ⟨5, 7, fun _ => 0, 0, 3⟩).head ≤ 128 ∧
      0 ≤ (aStep ⟨120, 128, 2⟩ (fun _ => 0) ⟨5, 7, fun _ => 0, 0, 3⟩).counter) ∧
    (0 < 256 ∧ 1 < 4 ∧ 1 * counterStep 256 4 < 256) := by
  refine ⟨⟨by norm_num, by norm_num, by norm_num, ?_, ?_⟩, by norm_num, by norm_num, ?_⟩
  · exact (analyzer_invariants_amended.1 ⟨120, 128, 2⟩ (fun _ => 0)
      ⟨5, 7, fun _ => 0, 0, 3⟩ (by norm_num) (by norm_num) (by norm_num)).1
  · exact (analyzer_invariants_amended.1 ⟨120, 128, 2⟩ (fun _ => 0)
      ⟨5, 7, fun _ => 0, 0, 3⟩ (by norm_num) (by norm_num) (by norm_num)).2
  · exact analyzer_invariants_amended.2 256 4 1 (by norm_num) (by norm_num)

/-- C6 counterexample: after 33 loop iterations consuming the 128 samples
(appends of 4, one FFT at counter 120, then appends to the ring edge), the
ring head equals B = 128 exactly, so the claimed strict invariant
head < B does not hold for every reachable state. -/
theorem analyzer_head_cex :
    ¬ (((aStep c6cfg (fun _ => 0))^[33] c6st).head < c6cfg.B) := by
  have h : ((aStep c6cfg (fun _ => 0))^[33] c6st).head = 128 := by rfl
  rw [h]
  decide

theorem aStep_term_aux (cfg : ACfg) (inp : ℕ → ℚ) (hp : 1 ≤ cfg.period) :
    ∀ (S K : ℕ) (st : ALoop), st.samples ≤ S → st.counter.toNat ≤ K →
      ∃ n, ((aStep cfg inp)^[n] st).samples = 0 := by
  intro S
  induction S with
  | zero =>
      intro K st hS _
      exact ⟨0, by simpa using Nat.le_zero.mp hS⟩
  | succ S ihS =>
      intro K
      induction K with
      | zero =>
          intro st hS hK
          by_cases hs : st.samples = 0
          · exact ⟨0, hs⟩
          · by_cases hf : (cfg.period : ℤ) - st.counter ≤ 0
            · exfalso
              omega
            · have h1 : (aStep cfg inp st).samples < st.samples := by
                rw [aStep, if_neg hs, if_neg hf, aStepApp_samples]
                have := aStepTp_pos cfg st hs hf
                omega
              obtain ⟨n, hn⟩ := ihS ((aStep cfg inp st).counter.toNat)
                (aStep cfg inp st) (by omega) (Nat.le_refl _)
              exact ⟨n + 1, by rwa [Function.iterate_succ_apply]⟩
      | succ K ihK =>
          intro st hS hK
          by_cases hs : st.samples = 0
          · exact ⟨0, hs⟩
          · by_cases hf : (cfg.period : ℤ) - st.counter ≤ 0
            · have hstep : aStep cfg inp st =
                  { st with counter := st.counter - (cfg.period : ℤ) } := by
                rw [aStep, if_neg hs, if_pos hf]
              have hsam : (aStep cfg inp st).samples = st.samples := by
                rw [hstep]
              have hcnt : (aStep cfg inp st).counter.toNat ≤ K := by
                rw [hstep]
                show (st.counter - (cfg.period : ℤ)).toNat ≤ K
                omega
              obtain ⟨n, hn⟩ := ihK (aStep cfg inp st) (by omega) hcnt
              exact ⟨n + 1, by rwa [Function.iterate_succ_apply]⟩
            · have h1 : (aStep cfg inp st).samples < st.samples := by
                rw [aStep, if_neg hs, if_neg hf, aStepApp_samples]
                have := aStepTp_pos cfg st hs hf
                omega
              obtain ⟨n, hn⟩ := ihS ((aStep cfg inp st).counter.toNat)
                (aStep cfg inp st) (by omega) (Nat.le_refl _)
              exact ⟨n + 1, by rwa [Function.iterate_succ_apply]⟩

theorem sweep_from_the_past_ctrl (st : OscSt) :
    (sweep_from_the_past st).enState = st.enState ∧
    (sweep_from_the_past st).bufHead = st.bufHead ∧
    (sweep_from_the_past st).count = st.count ∧
    (sweep_from_the_past st).M = st.M ∧
    (sweep_from_the_past st).trigAt = st.trigAt ∧
    (sweep_from_the_past st).nLimit = st.nLimit ∧
    (sweep_from_the_past st).sweepComplete = st.sweepComplete ∧
    (sweep_from_the_past st).cap = st.cap ∧
    (sweep_from_the_past st).trg = st.trg ∧
    (sweep_from_the_past st).nPost = st.nPost ∧
    (sweep_from_the_past st).nPre = st.nPre := by
  rw [sweep_from_the_past]
  split_ifs <;> exact ⟨rfl, rfl, rfl, rfl, rfl, rfl, rfl, rfl, rfl, rfl, rfl⟩

theorem sweepPostCopy_ctrl (st : OscSt) :
    (sweepPostCopy st).enState = st.enState ∧
    (sweepPostCopy st).bufHead = st.bufHead ∧
    (sweepPostCopy st).count = st.count ∧
    (sweepPostCopy st).M = st.M ∧
    (sweepPostCopy st).nLimit = st.nLimit ∧
    (sweepPostCopy st).sweepComplete = st.sweepComplete ∧
    (sweepPostCopy st).cap = st.cap := by
  rw [sweepPostCopy]
  split <;> exact ⟨rfl, rfl, rfl, rfl, rfl, rfl, rfl⟩

theorem sweepPostCopy_sweepHead (st : OscSt) :
    (sweepPostCopy st).sweepHead = st.sweepHead + postCopyLen st := by
  rw [sweepPostCopy, postCopyLen]
  split <;> rfl

theorem oscIngest_ctrl (inp : ℕ → ℚ) (st : OscSt) :
    (oscIngest inp st).enState = st.enState ∧
    (oscIngest inp st).sweepHead = st.sweepHead ∧
    (oscIngest inp st).nLimit = st.nLimit ∧
    (oscIngest inp st).sweepComplete = st.sweepComplete ∧
    (oscIngest inp st).M = st.M ∧
    (oscIngest inp st).count =
      st.count - min (st.M * st.count) (CAPSZ - st.bufHead) / st.M := by
  exact ⟨rfl, rfl, rfl, rfl, rfl, rfl⟩

theorem oscIngest_count_M0 (inp : ℕ → ℚ) (st : OscSt) (h : st.M = 0) :
    (oscIngest inp st).count = st.count := by
  have := (oscIngest_ctrl inp st).2.2.2.2.2
  rw [this, h]
  simp

/-- C10: before the first update_settings the oversampling factor still has
the constructor's value 0, and the to_do = to_store / nOversampling
division of both loop branches then divides by zero; under the embedding's
total division the loop consumes no input (count never decreases), so the
computation is well-defined only under the precondition
nOversampling >= 1. -/
theorem oscilloscope_division_precondition :
    oscConstruct.M = 0 ∧
      ∀ (inp : ℕ → ℚ) (st : OscSt), st.M = 0 →
        (oscStep inp st).count = st.count := by
  refine ⟨rfl, ?_⟩
  intro inp st hM
  by_cases hc : st.count = 0
  · rw [oscStep, oscStepEv, if_pos hc]
  · by_cases hs : st.enState = OscState.sweeping
    · rw [oscStep, oscStepEv, if_neg hc, if_pos hs]
      show (oscStepSwp inp st).count = st.count
      have hM1 : (sweepPostCopy st).M = 0 := by
        rw [(sweepPostCopy_ctrl st).2.2.2.1, hM]
      have h1 : (oscIngest inp (sweepPostCopy st)).count = st.count := by
        rw [oscIngest_count_M0 inp _ hM1, (sweepPostCopy_ctrl st).2.2.1]
      rw [oscStepSwp]
      split
      · exact h1
      · exact h1
    · rw [oscStep, oscStepEv, if_neg hc, if_neg hs]
      show (oscStepAcq inp st).1.count = st.count
      rw [oscStepAcq]
      simp only [hM, Nat.zero_mul, Nat.zero_min, Nat.zero_div, oscFeedLoop,
        Nat.sub_zero]

/-- Witness for oscilloscope_division_precondition: a process call with
count 5 on the constructor state consumes nothing. -/
theorem oscilloscope_division_precondition_witness :
    ({ oscConstruct with count := 5 } : OscSt).M = 0 ∧
      (oscStep (fun _ => 0) { oscConstruct with count := 5 }).count =
        ({ oscConstruct with count := 5 } : OscSt).count :=
  ⟨rfl, oscilloscope_division_precondition.2 (fun _ => 0) _ rfl⟩

/-- C5 (amended): an iteration of the process loop that starts in the
SWEEPING state feeds no sample to the trigger detector and accepts no
trigger event; the original claim fails inside a single ACQUIRING batch,
where the inner loop keeps feeding the detector after an in-batch fire has
already switched the run state to SWEEPING and accepts a further FIRED
there (osc_trigger_in_sweeping_cex). -/
theorem osc_sweeping_no_feed (inp : ℕ → ℚ) (st : OscSt)
    (h : st.enState = OscState.sweeping) : (oscStepEv inp st).2 = [] := by
  rw [oscStepEv]
  by_cases hc : st.count = 0
  · rw [if_pos hc]
  · rw [if_neg hc, if_pos h]

/-- Witness for osc_sweeping_no_feed at a concrete SWEEPING state. -/
theorem osc_sweeping_no_feed_witness :
    ({ oscConstruct with enState := OscState.sweeping, count := 2 } : OscSt).enState =
        OscState.sweeping ∧
      (oscStepEv (fun _ => 0)
        { oscConstruct with enState := OscState.sweeping, count := 2 }).2 = [] :=
  ⟨rfl, osc_sweeping_no_feed _ _ rfl⟩

/-- C5 counterexample: in a single ACQUIRING batch, after the trigger fires
on the first sample and the run state switches to SWEEPING, the remaining
samples of the batch are still fed to the trigger detector while the state
machine is in SWEEPING, and a second rising edge in the same batch is
accepted as a trigger event while in SWEEPING. -/
theorem osc_trigger_in_sweeping_cex :
    OscEv.fed OscState.sweeping (-1) ∈ (oscStepEv c5inp c5st).2 ∧
    OscEv.fire OscState.sweeping ∈ (oscStepEv c5inp c5st).2 := by
  decide

theorem oscFeedLoop_preserve (base : ℕ) : ∀ (k n : ℕ) (st : OscSt),
    ((oscFeedLoop base n k st).1).count = st.count ∧
    ((oscFeedLoop base n k st).1).bufHead = st.bufHead ∧
    ((oscFeedLoop base n k st).1).M = st.M := by
  intro k
  induction k with
  | zero => exact fun n st => ⟨rfl, rfl, rfl⟩
  | succ k ih =>
      intro n st
      rw [oscFeedLoop]
      cases hfd : (trgStep st.trg (st.cap (base + n))).fired
      · simpa [hfd] using ih (n + 1) { st with trg := trgStep st.trg (st.cap (base + n)) }
      · have h2 := sweep_from_the_past_ctrl
          { st with
            trg := trgStep st.trg (st.cap (base + n))
            enState := OscState.sweeping
            trigAt := base + n
            sweepHead := 0
            written := 0
            sweepComplete := false }
        simp only [hfd]
        have h3 := ih (n + 1) (sweep_from_the_past
          { st with
            trg := trgStep st.trg (st.cap (base + n))
            enState := OscState.sweeping
            trigAt := base + n
            sweepHead := 0
            written := 0
            sweepComplete := false })
        simp only [if_true]
        exact ⟨by rw [h3.1, h2.2.2.1], by rw [h3.2.1, h2.2.1], by rw [h3.2.2, h2.2.2.2.1]⟩

theorem oscFeedLoop_complete (base : ℕ) : ∀ (k n : ℕ) (st : OscSt),
    st.sweepComplete = false → ((oscFeedLoop base n k st).1).sweepComplete = false := by
  intro k
  induction k with
  | zero => exact fun n st h => h
  | succ k ih =>
      intro n st h
      rw [oscFeedLoop]
      cases hfd : (trgStep st.trg (st.cap (base + n))).fired
      · simpa [hfd] using ih (n + 1) { st with trg := trgStep st.trg (st.cap (base + n)) } h
      · simp only [hfd, if_true]
        apply ih
        have h2 := (sweep_from_the_past_ctrl
          { st with
            trg := trgStep st.trg (st.cap (base + n))
            enState := OscState.sweeping
            trigAt := base + n
            sweepHead := 0
            written := 0
            sweepComplete := false }).2.2.2.2.2.2.1
        rw [h2]

theorem sweepLimitHit_iff (nLimit nHead : ℕ) (h : 1 ≤ nLimit) :
    sweepLimitHit nLimit nHead = true ↔ nLimit - 1 ≤ nHead := by
  rw [sweepLimitHit, if_neg (by omega)]
  simp

/-- C7 (amended): in the SWEEPING state the completion flag is raised
exactly when the sweep head, after the iteration's post-trigger copy, has
reached nLimit - 1 - that is, once at least nLimit - 1 (not exactly
nLimit) samples have been received since the trigger fired - and at that
moment the machine returns to ACQUIRING with the sweep head reset, so the
flag is raised once per sweep; an ACQUIRING iteration never raises it. -/
theorem osc_sweep_completion_amended :
    (∀ (inp : ℕ → ℚ) (st : OscSt), st.enState = OscState.sweeping →
        st.count ≠ 0 → 1 ≤ st.nLimit → st.sweepComplete = false →
        (((oscStep inp st).sweepComplete = true) ↔
          st.nLimit - 1 ≤ st.sweepHead + postCopyLen st) ∧
        ((oscStep inp st).sweepComplete = true →
          (oscStep inp st).enState = OscState.acquiring ∧
            (oscStep inp st).sweepHead = 0)) ∧
    (∀ (inp : ℕ → ℚ) (st : OscSt), st.enState = OscState.acquiring →
        st.sweepComplete = false → (oscStep inp st).sweepComplete = false) := by
  constructor
  · intro inp st hsw hc hL hSC
    rw [oscStep, oscStepEv, if_neg hc, if_pos hsw]
    show ((oscStepSwp inp st).sweepComplete = true ↔ _) ∧ _
    have hhd : (oscIngest inp (sweepPostCopy st)).sweepHead =
        st.sweepHead + postCopyLen st := by
      rw [(oscIngest_ctrl _ _).2.1, sweepPostCopy_sweepHead]
    have hlim : (oscIngest inp (sweepPostCopy st)).nLimit = st.nLimit := by
      rw [(oscIngest_ctrl _ _).2.2.1, (sweepPostCopy_ctrl st).2.2.2.2.1]
    have hcomp : (oscIngest inp (sweepPostCopy st)).sweepComplete = false := by
      rw [(oscIngest_ctrl _ _).2.2.2.1, (sweepPostCopy_ctrl st).2.2.2.2.2.1, hSC]
    rw [oscStepSwp]
    by_cases hcnd : sweepLimitHit (oscIngest inp (sweepPostCopy st)).nLimit
        (oscIngest inp (sweepPostCopy st)).sweepHead = true
    · rw [if_pos hcnd]
      refine ⟨?_, fun _ => ⟨rfl, rfl⟩⟩
      rw [hlim, hhd] at hcnd
      simp only [show
        ({ oscIngest inp (sweepPostCopy st) with
            enState := OscState.acquiring, sweepHead := 0,
            sweepComplete := true } : OscSt).sweepComplete = true from rfl,
        true_iff]
      exact (sweepLimitHit_iff _ _ hL).mp hcnd
    · rw [if_neg hcnd]
      have hnot : ¬ (st.nLimit - 1 ≤ st.sweepHead + postCopyLen st) := by
        intro hcontra
        exact hcnd (by
          rw [hlim, hhd]
          exact (sweepLimitHit_iff _ _ hL).mpr hcontra)
      constructor
      · rw [hcomp]
        simp [hnot]
      · intro hcontra
        rw [hcomp] at hcontra
        exact absurd hcontra (by simp)
  · intro inp st hacq hSC
    rw [oscStep, oscStepEv]
    by_cases hc : st.count = 0
    · rw [if_pos hc]
      exact hSC
    · rw [if_neg hc, if_neg (by rw [hacq]; exact fun hh => nomatch hh)]
      show (oscStepAcq inp st).1.sweepComplete = false
      rw [oscStepAcq]
      exact oscFeedLoop_complete _ _ _ _ hSC

/-- Witness for osc_sweep_completion_amended at a concrete SWEEPING state
(the state the C7 counterexample run reaches before its completing
iteration) and at a concrete ACQUIRING state. -/
theorem osc_sweep_completion_amended_witness :
    (({ oscConstruct with
        enState := OscState.sweeping, count := 1, nLimit := 4, M := 1,
        nPost := 3, trigAt := 1, bufHead := 2, sweepHead := 1 } : OscSt).enState =
        OscState.sweeping ∧
      (( { oscConstruct with
        enState := OscState.sweeping, count := 1, nLimit := 4, M := 1,
        nPost := 3, trigAt := 1, bufHead := 2, sweepHead := 1 } : OscSt).count ≠ 0) ∧
      ((oscStep (fun _ => 0)
          { oscConstruct with
            enState := OscState.sweeping, count := 1, nLimit := 4, M := 1,
            nPost := 3, trigAt := 1, bufHead := 2, sweepHead := 1 }).sweepComplete = true ↔
        4 - 1 ≤ 1 + postCopyLen
          { oscConstruct with
            enState := OscState.sweeping, count := 1, nLimit := 4, M := 1,
            nPost := 3, trigAt := 1, bufHead := 2, sweepHead := 1 })) ∧
    ((oscStep (fun _ => 0)
        { oscConstruct with enState := OscState.acquiring, count := 1, M := 1 }).sweepComplete =
      false) :=
  ⟨⟨rfl, by decide,
    ((osc_sweep_completion_amended.1 (fun _ => 0) _ rfl (by decide) (by decide) rfl).1)⟩,
   osc_sweep_completion_amended.2 (fun _ => 0) _ rfl rfl⟩

/-- C7 counterexample: with nPreTrigger = 1, nPostTrigger = 3 (so
nLimit = 4), the trigger fires on the last sample of its batch; during the
next call's SWEEPING iteration the completion test nHead >= nLimit - 1
passes after only 3 = nLimit - 1 samples have been received by the sweep
buffer since the FIRED event, so bSweepComplete is raised before the sweep
buffer has received nLimit samples. -/
theorem osc_sweep_complete_cex :
    (oscStep c7inp { oscStep c7inp c7st with count := 1 }).sweepComplete = true ∧
    (oscStep c7inp { oscStep c7inp c7st with count := 1 }).written = 3 ∧
    (oscStep c7inp { oscStep c7inp c7st with count := 1 }).nLimit = 4 := by
  decide

theorem oscIngest_fields (inp : ℕ → ℚ) (st : OscSt) :
    (oscIngest inp st).M = st.M ∧
    (oscIngest inp st).bufHead =
      (st.bufHead + min (st.M * st.count) (CAPSZ - st.bufHead)) % CAPSZ ∧
    (oscIngest inp st).count =
      st.count - min (st.M * st.count) (CAPSZ - st.bufHead) / st.M :=
  ⟨rfl, rfl, rfl⟩

theorem oscStep_fields (inp : ℕ → ℚ) (st : OscSt) (hc : st.count ≠ 0) :
    (oscStep inp st).M = st.M ∧
    (oscStep inp st).bufHead =
      (st.bufHead + min (st.M * st.count) (CAPSZ - st.bufHead)) % CAPSZ ∧
    (oscStep inp st).count =
      st.count - min (st.M * st.count) (CAPSZ - st.bufHead) / st.M := by
  rw [oscStep, oscStepEv, if_neg hc]
  by_cases hs : st.enState = OscState.sweeping
  · rw [if_pos hs]
    have hpc := sweepPostCopy_ctrl st
    have hx := oscIngest_fields inp (sweepPostCopy st)
    have hM0 : (oscIngest inp (sweepPostCopy st)).M = st.M := by
      rw [hx.1, hpc.2.2.2.1]
    have hB0 : (oscIngest inp (sweepPostCopy st)).bufHead =
        (st.bufHead + min (st.M * st.count) (CAPSZ - st.bufHead)) % CAPSZ := by
      rw [hx.2.1, hpc.2.1, hpc.2.2.1, hpc.2.2.2.1]
    have hC0 : (oscIngest inp (sweepPostCopy st)).count =
        st.count - min (st.M * st.count) (CAPSZ - st.bufHead) / st.M := by
      rw [hx.2.2, hpc.2.1, hpc.2.2.1, hpc.2.2.2.1]
    show (oscStepSwp inp st).M = _ ∧ (oscStepSwp inp st).bufHead = _ ∧
      (oscStepSwp inp st).count = _
    rw [oscStepSwp]
    split
    · exact ⟨hM0, hB0, hC0⟩
    · exact ⟨hM0, hB0, hC0⟩
  · rw [if_neg hs]
    have hframe := oscFeedLoop_preserve st.bufHead
      (min (st.M * st.count) (CAPSZ - st.bufHead)) 0
      { st with cap := (upsampleWrite st.cap st.bufHead inp 0 st.M
          (min (st.M * st.count) (CAPSZ - st.bufHead) / st.M)) }
    refine ⟨?_, ?_, ?_⟩
    · show (oscFeedLoop st.bufHead 0 (min (st.M * st.count) (CAPSZ - st.bufHead))
        { st with cap := (upsampleWrite st.cap st.bufHead inp 0 st.M
            (min (st.M * st.count) (CAPSZ - st.bufHead) / st.M)) }).1.M = st.M
      exact hframe.2.2
    · show ((oscFeedLoop st.bufHead 0 (min (st.M * st.count) (CAPSZ - st.bufHead))
        { st with cap := (upsampleWrite st.cap st.bufHead inp 0 st.M
            (min (st.M * st.count) (CAPSZ - st.bufHead) / st.M)) }).1.bufHead +
          min (st.M * st.count) (CAPSZ - st.bufHead)) % CAPSZ =
        (st.bufHead + min (st.M * st.count) (CAPSZ - st.bufHead)) % CAPSZ
      rw [hframe.2.1]
    · show (oscFeedLoop st.bufHead 0 (min (st.M * st.count) (CAPSZ - st.bufHead))
        { st with cap := (upsampleWrite st.cap st.bufHead inp 0 st.M
            (min (st.M * st.count) (CAPSZ - st.bufHead) / st.M)) }).1.count -
          min (st.M * st.count) (CAPSZ - st.bufHead) / st.M =
        st.count - min (st.M * st.count) (CAPSZ - st.bufHead) / st.M
      rw [hframe.1]

theorem osc_term_aux (inp : ℕ → ℚ) : ∀ (W : ℕ) (st : OscSt),
    2 * st.count + (if st.bufHead = 0 then 0 else 1) ≤ W →
    1 ≤ st.M → st.M ≤ CAPSZ → st.bufHead ≤ CAPSZ →
    ∃ n, ((oscStep inp)^[n] st).count = 0 := by
  intro W
  induction W with
  | zero =>
      intro st hW _ _ _
      refine ⟨0, ?_⟩
      show st.count = 0
      omega
  | succ W ih =>
      intro st hW hM hMC hB
      by_cases hc : st.count = 0
      · exact ⟨0, hc⟩
      · obtain ⟨hM', hB', hC'⟩ := oscStep_fields inp st hc
        have hMc : st.M ≤ st.M * st.count :=
          Nat.le_mul_of_pos_right st.M (by omega)
        have hB2 : (oscStep inp st).bufHead ≤ CAPSZ := by
          have : (st.bufHead + min (st.M * st.count) (CAPSZ - st.bufHead)) % CAPSZ
              < CAPSZ := Nat.mod_lt _ (by norm_num [CAPSZ])
          omega
        have hble : (if (oscStep inp st).bufHead = 0 then 0 else 1) ≤ 1 := by
          split <;> omega
        have h2c : 2 * st.count ≤ W + 1 := by
          by_cases h : st.bufHead = 0 <;> simp [h] at hW <;> omega
        by_cases htd : min (st.M * st.count) (CAPSZ - st.bufHead) / st.M = 0
        · have hlt : min (st.M * st.count) (CAPSZ - st.bufHead) < st.M :=
            (Nat.div_eq_zero_iff (by omega)).mp htd
          have hbh0 : st.bufHead ≠ 0 := by
            intro h0
            rw [h0, Nat.sub_zero] at hlt
            have hcap : st.M ≤ CAPSZ := hMC
            omega
          have hsum : st.bufHead + min (st.M * st.count) (CAPSZ - st.bufHead) =
              CAPSZ := by omega
          have hnewhead : (oscStep inp st).bufHead = 0 := by
            rw [hB', hsum, Nat.mod_self]
          have hcount' : (oscStep inp st).count = st.count := by
            rw [hC', htd, Nat.sub_zero]
          have hb1 : (if st.bufHead = 0 then (0 : ℕ) else 1) = 1 := if_neg hbh0
          have hWnext : 2 * (oscStep inp st).count +
              (if (oscStep inp st).bufHead = 0 then 0 else 1) ≤ W := by
            rw [hcount', hnewhead, if_pos rfl]
            rw [hb1] at hW
            omega
          obtain ⟨n, hn⟩ := ih (oscStep inp st) hWnext
            (by rw [hM']; exact hM) (by rw [hM']; exact hMC) hB2
          exact ⟨n + 1, by rwa [Function.iterate_succ_apply]⟩
        · have hk1 : 1 ≤ min (st.M * st.count) (CAPSZ - st.bufHead) / st.M :=
            Nat.one_le_iff_ne_zero.mpr htd
          have hkc : min (st.M * st.count) (CAPSZ - st.bufHead) / st.M ≤ st.count := by
            have h5 : min (st.M * st.count) (CAPSZ - st.bufHead) / st.M ≤
                st.M * st.count / st.M :=
              Nat.div_le_div_right (Nat.min_le_left _ _)
            rwa [Nat.mul_div_cancel_left _ (by omega : 0 < st.M)] at h5
          have hWnext : 2 * (oscStep inp st).count +
              (if (oscStep inp st).bufHead = 0 then 0 else 1) ≤ W := by
            rw [hC']
            omega
          obtain ⟨n, hn⟩ := ih (oscStep inp st) hWnext
            (by rw [hM']; exact hM) (by rw [hM']; exact hMC) hB2
          exact ⟨n + 1, by rwa [Function.iterate_succ_apply]⟩

/-- C9 (amended): both process loops terminate under the documented
operating preconditions: the Analyzer::process loop from every state and
input once nFftPeriod >= 1, and the Oscilloscope::process loop from every
state with 1 <= nOversampling <= CAP and capture head inside the ring.
The claim's unconditional form fails: with nFftPeriod = 0 - reachable by
calling process before set_sample_rate, since reconfigure then computes
nFftPeriod = 0 / rate = 0 - the analyzer loop spins forever on any
nonzero sample count, and with nOversampling = 0 the oscilloscope loop
divides by zero and consumes nothing. -/
theorem process_loops_terminate :
    (∀ (cfg : ACfg) (inp : ℕ → ℚ) (st : ALoop), 1 ≤ cfg.period →
        ∃ n, ((aStep cfg inp)^[n] st).samples = 0) ∧
    (∀ (inp : ℕ → ℚ) (st : OscSt),
        1 ≤ st.M → st.M ≤ CAPSZ → st.bufHead ≤ CAPSZ →
        ∃ n, ((oscStep inp)^[n] st).count = 0) := by
  constructor
  · intro cfg inp st hp
    exact aStep_term_aux cfg inp hp st.samples st.counter.toNat st
      (Nat.le_refl _) (Nat.le_refl _)
  · intro inp st h1 h2 h3
    exact osc_term_aux inp
      (2 * st.count + (if st.bufHead = 0 then 0 else 1)) st
      (Nat.le_refl _) h1 h2 h3

/-- Witness for process_loops_terminate at a concrete analyzer
configuration and a concrete oscilloscope state. -/
theorem process_loops_terminate_witness :
    ((1 : ℕ) ≤ 120 ∧
      ∃ n, ((aStep ⟨120, 128, 2⟩ (fun _ => 0))^[n]
        ⟨0, 0, fun _ => 0, 0, 5⟩).samples = 0) ∧
    ((1 : ℕ) ≤ 1 ∧ (1 : ℕ) ≤ CAPSZ ∧ (0 : ℕ) ≤ CAPSZ ∧
      ∃ n, ((oscStep (fun _ => 0))^[n]
        { oscConstruct with M := 1, count := 2 }).count = 0) :=
  ⟨⟨by norm_num, process_loops_terminate.1 ⟨120, 128, 2⟩ (fun _ => 0) _ (by norm_num)⟩,
   ⟨Nat.le_refl 1, by norm_num [CAPSZ], Nat.zero_le _,
    process_loops_terminate.2 (fun _ => 0) { oscConstruct with M := 1, count := 2 }
      (Nat.le_refl 1) (by norm_num [CAPSZ]) (Nat.zero_le _)⟩⟩

/-- C9 counterexample: with nFftPeriod = 0 the FFT branch fires forever
(to_process = 0 - counter <= 0 and counter -= 0 changes nothing), so the
loop never consumes its one pending sample: no number of iterations makes
the remaining count zero, i.e. Analyzer::process does not terminate from
this reachable state. -/
theorem analyzer_nontermination_cex :
    ¬ ∃ n, ((aStep c9cfg (fun _ => 0))^[n] c9st).samples = 0 := by
  have hfix : aStep c9cfg (fun _ => 0) c9st = c9st := rfl
  rintro ⟨n, hn⟩
  rw [Function.iterate_fixed hfix] at hn
  exact Nat.one_ne_zero hn

theorem sweep_from_the_past_head (st : OscSt)
    (h0 : st.sweepHead = 0) (_hT : st.trigAt < CAPSZ) (hP : st.nPre ≤ CAPSZ)
    (hP1 : 1 ≤ st.nPre) :
    (sweep_from_the_past st).sweepHead = st.nPre := by
  rw [sweep_from_the_past]
  by_cases hc : st.trigAt < st.nPre
  · rw [if_pos hc, if_pos (Nat.le_add_left _ _)]
    show st.sweepHead + (CAPSZ - (CAPSZ - st.nPre + st.trigAt)) + st.trigAt = st.nPre
    rw [h0]
    simp only [CAPSZ] at *
    omega
  · rw [if_neg hc]
    by_cases hz : st.trigAt ≤ st.trigAt - st.nPre
    · exfalso
      omega
    · rw [if_neg hz]
      show st.sweepHead + (st.trigAt - (st.trigAt - st.nPre)) = st.nPre
      rw [h0]
      omega

theorem sweep_from_the_past_contents (st : OscSt)
    (h0 : st.sweepHead = 0) (hT : st.trigAt < CAPSZ) (hP : st.nPre ≤ CAPSZ) :
    ∀ k, k < st.nPre →
      (sweep_from_the_past st).sweep k =
        st.cap ((CAPSZ + st.trigAt - st.nPre + k) % CAPSZ) := by
  intro k hk
  rw [sweep_from_the_past]
  by_cases hc : st.trigAt < st.nPre
  · rw [if_pos hc, if_pos (Nat.le_add_left _ _)]
    show copySeg (copySeg st.sweep st.sweepHead st.cap (CAPSZ - st.nPre + st.trigAt)
        (CAPSZ - (CAPSZ - st.nPre + st.trigAt)))
      (st.sweepHead + (CAPSZ - (CAPSZ - st.nPre + st.trigAt))) st.cap 0 st.trigAt k =
      st.cap ((CAPSZ + st.trigAt - st.nPre + k) % CAPSZ)
    rw [h0]
    simp only [copySeg, CAPSZ] at *
    split_ifs with hx hy
    · congr 1
      omega
    · congr 1
      omega
    · exfalso
      omega
  · rw [if_neg hc]
    by_cases hz : st.trigAt ≤ st.trigAt - st.nPre
    · exfalso
      omega
    · rw [if_neg hz]
      show copySeg st.sweep st.sweepHead st.cap (st.trigAt - st.nPre)
          (st.trigAt - (st.trigAt - st.nPre)) k =
        st.cap ((CAPSZ + st.trigAt - st.nPre + k) % CAPSZ)
      rw [h0]
      simp only [copySeg, CAPSZ] at *
      split_ifs with hx
      · congr 1
        omega
      · exfalso
        omega

/-- C2 (amended): when the trigger fires at ring index trigAt with
pre-trigger length nPre and the sweep head has just been reset to 0,
(i) the splice writes the nPre ring samples immediately preceding the
trigger sample - in order, trigger sample excluded - into the first nPre
sweep positions, (ii) the sweep head lands exactly at nPre (for nPre >= 1),
and (iii) the following post-trigger copy puts the trigger-causing sample
itself at sweep offset nPre whenever its first copy does not wrap the
capture ring (trigAt <= copyTail).  The claim's unconditional form of
(iii) fails in the wrapping case, because the source does not advance the
sweep head between the two post-trigger segments, so the second segment
overwrites the first (osc_sweep_trigger_sample_cex). -/
theorem osc_pretrigger_splice (st : OscSt)
    (h0 : st.sweepHead = 0) (hT : st.trigAt < CAPSZ) (hP : st.nPre ≤ CAPSZ) :
    (∀ k, k < st.nPre →
        (sweep_from_the_past st).sweep k =
          st.cap ((CAPSZ + st.trigAt - st.nPre + k) % CAPSZ)) ∧
    (1 ≤ st.nPre → (sweep_from_the_past st).sweepHead = st.nPre) ∧
    (1 ≤ st.nPre →
      st.trigAt ≤ min ((st.trigAt + st.nPost) % CAPSZ) st.bufHead →
      (sweepPostCopy (sweep_from_the_past st)).sweep st.nPre = st.cap st.trigAt) := by
  refine ⟨sweep_from_the_past_contents st h0 hT hP, fun hP1 =>
    sweep_from_the_past_head st h0 hT hP hP1, ?_⟩
  intro hP1 hcond
  have hctrl := sweep_from_the_past_ctrl st
  have hA : (sweep_from_the_past st).trigAt = st.trigAt := hctrl.2.2.2.2.1
  have hB : (sweep_from_the_past st).bufHead = st.bufHead := hctrl.2.1
  have hCap : (sweep_from_the_past st).cap = st.cap := hctrl.2.2.2.2.2.2.2.1
  have hPost : (sweep_from_the_past st).nPost = st.nPost := hctrl.2.2.2.2.2.2.2.2.2.1
  have hH : (sweep_from_the_past st).sweepHead = st.nPre :=
    sweep_from_the_past_head st h0 hT hP hP1
  rw [sweepPostCopy, hA, hB, hCap, hPost, hH, if_pos hcond]
  show copySeg (sweep_from_the_past st).sweep st.nPre st.cap st.trigAt
      (min ((st.trigAt + st.nPost) % CAPSZ) st.bufHead - st.trigAt + 1) st.nPre =
    st.cap st.trigAt
  rw [copySeg]
  rw [if_pos (by omega)]
  congr 1
  omega

/-- C2 counterexample: after the splice, the first post-trigger copy wraps
the capture ring; because the source does not advance the sweep head
between the wrap's two segments, the second segment overwrites the first,
and the sample at sweep offset nPreTrigger = 1 ends up being ring slot 0's
sample 5 instead of the trigger-causing sample 7 at ring slot 196607. -/
theorem osc_sweep_trigger_sample_cex :
    (sweepPostCopy (sweep_from_the_past c2st)).sweep c2st.nPre = 5 ∧
    c2st.cap c2st.trigAt = 7 := by
  decide

/-- Witness for osc_pretrigger_splice: instantiates all three parts at
c2wit with concrete indices. -/
theorem osc_pretrigger_splice_witness :
    (c2wit.sweepHead = 0 ∧ c2wit.trigAt < CAPSZ ∧ c2wit.nPre ≤ CAPSZ ∧
      1 ≤ c2wit.nPre ∧
      c2wit.trigAt ≤ min ((c2wit.trigAt + c2wit.nPost) % CAPSZ) c2wit.bufHead) ∧
    (sweep_from_the_past c2wit).sweep 0 =
      c2wit.cap ((CAPSZ + c2wit.trigAt - c2wit.nPre + 0) % CAPSZ) ∧
    (sweep_from_the_past c2wit).sweepHead = c2wit.nPre ∧
    (sweepPostCopy (sweep_from_the_past c2wit)).sweep c2wit.nPre =
      c2wit.cap c2wit.trigAt :=
  ⟨⟨rfl, by decide, by decide, by decide, by decide⟩,
   (osc_pretrigger_splice c2wit rfl (by decide) (by decide)).1 0 (by decide),
   (osc_pretrigger_splice c2wit rfl (by decide) (by decide)).2.1 (by decide),
   (osc_pretrigger_splice c2wit rfl (by decide) (by decide)).2.2 (by decide) (by decide)⟩
